import Mathlib

/-!
Verification of the operandinc/go-sdk client library (`operand.go`) against its
natural-language specification.

The Go source is shallowly embedded: pure computations become Lean functions,
the stateful `Object.Wait` polling loop becomes an explicit fuel-indexed
recursion instrumented with the list of performed sleeps and the number of
fetches, the HTTP transport is abstracted as a function from call index to
result, and the caller's `context.Context` cancellation signal is abstracted as
a boolean function of the cancellation-check index (check 0 is the check before
the first fetch; check `i ≥ 1` is the `select` guarding the sleep of loop
iteration `i`).  Machine integers in the source are Go `int`s used only as
counters, embedded as `Nat`/`Int`.
-/

namespace OperandSDK

/-- Go type `IndexingStatus string` (operand.go). -/
abbrev IndexingStatus := String

/-- Go constant `IndexingStatusIndexing IndexingStatus = "indexing"`. -/
def IndexingStatusIndexing : IndexingStatus := "indexing"

/-- Go constant `IndexingStatusReady IndexingStatus = "ready"`. -/
def IndexingStatusReady : IndexingStatus := "ready"

/-- Go constant `IndexingStatusError IndexingStatus = "error"`. -/
def IndexingStatusError : IndexingStatus := "error"

/-- Go type `ObjectType string` (operand.go). -/
abbrev ObjectType := String

def ObjectTypeCollection : ObjectType := "collection"

def ObjectTypeText : ObjectType := "text"

def ObjectTypeHTML : ObjectType := "html"

def ObjectTypeMarkdown : ObjectType := "markdown"

def ObjectTypePDF : ObjectType := "pdf"

def ObjectTypeImage : ObjectType := "image"

def ObjectTypeGitHubRepository : ObjectType := "github_repository"

def ObjectTypeEPUB : ObjectType := "epub"

def ObjectTypeAudio : ObjectType := "audio"

def ObjectTypeRSS : ObjectType := "rss"

def ObjectTypeNotion : ObjectType := "notion"

def ObjectTypeMbox : ObjectType := "mbox"

def ObjectEmail : ObjectType := "email"

def ObjectTypeNotionPage : ObjectType := "notion_page"

/-- The Go struct `Object` (operand.go).  `time.Time` stamps are embedded as
integer timestamps, the raw JSON `Metadata` as the string of its bytes, and the
`map[string]any` property bag as an association list whose values are carried
as their JSON encodings (no claim inspects them). -/
structure Object where
  id : String
  createdAt : Int
  updatedAt : Int
  type' : ObjectType
  metadata : String
  properties : List (String × String)
  indexingStatus : IndexingStatus
  parentId : Option String
  label : Option String
  objects : Int
deriving DecidableEq, Repr

/-- Go `time.Duration` sleep lengths, embedded in milliseconds: the
`sleepDuration` computation of `Object.Wait` (operand.go lines 291-301). -/
def goSleepSchedule (iterations : Nat) : Nat :=
  if iterations = 0 then 0
  else if iterations < 10 then 300
  else 1000

/-- How a call to `Object.Wait` ended.  `outOfFuel` is an artifact of the
fuel-indexed embedding of the unbounded Go `for` loop and is never the result
when the fetch trace settles within the supplied fuel. -/
inductive WaitOutcome where
  | success
  | cancelled
  | fetchFailed (e : String)
  | outOfFuel
deriving DecidableEq, Repr

/-- Result of the embedded `Object.Wait`: the Go function's return value
(`outcome` — `nil`, `ctx.Err()`, or the fetch error), the final value of the
caller's object `*o`, and two ghost instrumentation fields: how many
`client.GetObject` calls were made and the list of actually-performed sleep
durations, in order. -/
structure WaitResult where
  outcome : WaitOutcome
  obj : Object
  fetches : Nat
  delays : List Nat
deriving DecidableEq, Repr

/-- The `for o.IndexingStatus == IndexingStatusIndexing` loop of `Object.Wait`
(operand.go lines 289-321).  `fetch i` is the result of the `i`-th
`client.GetObject` call (Go `error` embedded as `String`); `cancel i` is
whether the context is already cancelled at the `select` guarding the sleep of
iteration `i`; `its` is the Go `iterations` counter (which also counts the
fetches already performed); `ds` accumulates performed sleeps. -/
def waitLoop (fetch : Nat → Except String Object) (cancel : Nat → Bool) :
    Nat → Object → Nat → List Nat → WaitResult
  | 0, o, its, ds => ⟨.outOfFuel, o, its, ds⟩
  | fuel + 1, o, its, ds =>
    if o.indexingStatus = IndexingStatusIndexing then
      if 0 < goSleepSchedule its then
        if cancel its then ⟨.cancelled, o, its, ds⟩
        else
          match fetch its with
          | .error e => ⟨.fetchFailed e, o, its + 1, ds ++ [goSleepSchedule its]⟩
          | .ok obj => waitLoop fetch cancel fuel obj (its + 1) (ds ++ [goSleepSchedule its])
      else
        match fetch its with
        | .error e => ⟨.fetchFailed e, o, its + 1, ds⟩
        | .ok obj => waitLoop fetch cancel fuel obj (its + 1) ds
    else ⟨.success, o, its, ds⟩

/-- The embedded `Object.Wait` (operand.go lines 274-325): the early return for
a non-`"indexing"` status, the initial `ctx.Err()` check (check index 0), then
the polling loop. -/
def waitGo (fetch : Nat → Except String Object) (cancel : Nat → Bool)
    (fuel : Nat) (o : Object) : WaitResult :=
  if o.indexingStatus = IndexingStatusIndexing then
    if cancel 0 then ⟨.cancelled, o, 0, []⟩
    else waitLoop fetch cancel fuel o 0 []
  else ⟨.success, o, 0, []⟩

/-- The sleeps actually performed by iterations `its, its+1, ..., its+i-1`
(iteration 0 sleeps 0 ms, i.e. not at all, and is filtered out). -/
def delaysSeg (its i : Nat) : List Nat :=
  ((List.range' its i).map goSleepSchedule).filter (fun d => decide (0 < d))

theorem delaysSeg_zero (its : Nat) : delaysSeg its 0 = [] := rfl

theorem delaysSeg_succ (its i : Nat) :
    delaysSeg its (i + 1) =
      (if 0 < goSleepSchedule its then [goSleepSchedule its] else []) ++
        delaysSeg (its + 1) i := by
  simp only [delaysSeg, List.range'_succ, List.map_cons, List.filter_cons]
  split
  · simp_all
  · simp_all

theorem delaysSeg_concat (its i : Nat) :
    delaysSeg its (i + 1) =
      delaysSeg its i ++
        (if 0 < goSleepSchedule (its + i) then [goSleepSchedule (its + i)] else []) := by
  simp only [delaysSeg, List.range'_1_concat, List.map_append, List.filter_append,
    List.map_cons, List.map_nil, List.filter_cons, List.filter_nil]
  split
  · simp_all
  · simp_all

/-- Unfolding the loop through `i` consecutive iterations whose cancellation
checks all pass and whose fetches all return still-`"indexing"` objects. -/
theorem waitLoop_advance (fetch : Nat → Except String Object) (cancel : Nat → Bool)
    (objs : Nat → Object) :
    ∀ (i fuel : Nat) (o : Object) (its : Nat) (ds : List Nat),
    i ≤ fuel →
    o.indexingStatus = IndexingStatusIndexing →
    (∀ j, j < i → cancel (its + j) = false) →
    (∀ j, j < i → fetch (its + j) = .ok (objs (its + j))) →
    (∀ j, j < i → (objs (its + j)).indexingStatus = IndexingStatusIndexing) →
    waitLoop fetch cancel fuel o its ds =
      waitLoop fetch cancel (fuel - i) (if i = 0 then o else objs (its + i - 1))
        (its + i) (ds ++ delaysSeg its i) := by
  intro i
  induction i with
  | zero =>
    intro fuel o its ds _ _ _ _ _
    simp [delaysSeg_zero]
  | succ i ih =>
    intro fuel o its ds hfuel ho hnc hf hpend
    obtain ⟨f, rfl⟩ : ∃ f, fuel = f + 1 := ⟨fuel - 1, by omega⟩
    have hc0 : cancel its = false := by simpa using hnc 0 (by omega)
    have hf0 : fetch its = .ok (objs its) := by simpa using hf 0 (by omega)
    have hp0 : (objs its).indexingStatus = IndexingStatusIndexing := by
      simpa using hpend 0 (by omega)
    have key : waitLoop fetch cancel (f + 1) o its ds =
        waitLoop fetch cancel f (objs its) (its + 1)
          (ds ++ (if 0 < goSleepSchedule its then [goSleepSchedule its] else [])) := by
      rw [waitLoop]
      rw [if_pos ho]
      by_cases hd : 0 < goSleepSchedule its
      · rw [if_pos hd, hc0]
        simp only [Bool.false_eq_true, if_false, hf0, if_pos hd]
      · rw [if_neg hd, hf0]
        simp [hd]
    rw [key]
    rw [ih f (objs its) (its + 1)
      (ds ++ (if 0 < goSleepSchedule its then [goSleepSchedule its] else []))
      (by omega) hp0
      (fun j hj => by
        have h := hnc (j + 1) (by omega)
        rwa [show its + (j + 1) = its + 1 + j by omega] at h)
      (fun j hj => by
        have h := hf (j + 1) (by omega)
        rwa [show its + (j + 1) = its + 1 + j by omega] at h)
      (fun j hj => by
        have h := hpend (j + 1) (by omega)
        rwa [show its + (j + 1) = its + 1 + j by omega] at h)]
    have harith1 : f + 1 - (i + 1) = f - i := by omega
    have harith2 : its + 1 + i = its + (i + 1) := by omega
    rw [harith1, harith2, List.append_assoc, ← delaysSeg_succ]
    by_cases hi : i = 0
    · subst hi
      simp
    · rw [if_neg hi, if_neg (by omega : ¬ i + 1 = 0)]

theorem goSleepSchedule_zero : goSleepSchedule 0 = 0 := rfl

theorem goSleepSchedule_pos (i : Nat) (h : i ≠ 0) : 0 < goSleepSchedule i := by
  unfold goSleepSchedule
  rw [if_neg h]
  split <;> omega

/-- The concrete per-iteration values of the performed-sleep list starting at
iteration 0: iteration 0 contributes nothing, iteration `j + 1` contributes
300 ms while `j + 1 < 10` and 1000 ms afterwards. -/
theorem delaysSeg_zero_succ_eq (N : Nat) :
    delaysSeg 0 (N + 1) =
      (List.range N).map (fun j => if j + 1 < 10 then 300 else 1000) := by
  have h1 : List.range' 0 (N + 1) = 0 :: List.range' 1 N := List.range'_succ 0 N 1
  rw [delaysSeg, h1, List.range'_eq_map_range]
  simp only [List.map_cons, List.map_map, List.filter_cons]
  rw [show (decide (0 < goSleepSchedule 0)) = false from rfl]
  simp only [Bool.false_eq_true, if_false]
  have hfun : (goSleepSchedule ∘ fun j => 1 + j) =
      (fun j : Nat => if j + 1 < 10 then 300 else 1000) := by
    funext j
    simp only [Function.comp_apply]
    unfold goSleepSchedule
    rw [if_neg (by omega : ¬ 1 + j = 0), show 1 + j = j + 1 from Nat.add_comm 1 j]
  rw [hfun]
  rw [List.filter_eq_self.mpr]
  intro a ha
  obtain ⟨j, _, rfl⟩ := List.mem_map.mp ha
  split <;> decide

/-- Shared helper: `Object.Wait` on a non-`"indexing"` object is an immediate
success touching nothing. -/
theorem waitGo_not_indexing (fetch : Nat → Except String Object) (cancel : Nat → Bool)
    (fuel : Nat) (o : Object) (h : o.indexingStatus ≠ IndexingStatusIndexing) :
    waitGo fetch cancel fuel o = ⟨.success, o, 0, []⟩ := by
  unfold waitGo
  rw [if_neg h]

/-- Shared helper: a pending object with an uncancelled initial check enters
the polling loop. -/
theorem waitGo_enter_loop (fetch : Nat → Except String Object) (cancel : Nat → Bool)
    (fuel : Nat) (o : Object) (h : o.indexingStatus = IndexingStatusIndexing)
    (hc : cancel 0 = false) :
    waitGo fetch cancel fuel o = waitLoop fetch cancel fuel o 0 [] := by
  unfold waitGo
  rw [if_pos h, hc]
  simp

/-- C1: for a pending object, a Wait whose fetch source stays pending for `N`
fetches and then leaves the pending state performs `N + 1` fetches, with no
wait before the fetch of iteration 0, a 300 ms wait before each of the fetches
of iterations 1 through 9, and a 1000 ms wait before each fetch of iteration
10 onward. -/
theorem wait_backoff_schedule (fetch : Nat → Except String Object) (cancel : Nat → Bool)
    (objs : Nat → Object) (o : Object) (N fuel : Nat)
    (hfuel : N + 2 ≤ fuel)
    (ho : o.indexingStatus = IndexingStatusIndexing)
    (hnc : ∀ j, cancel j = false)
    (hf : ∀ j, j ≤ N → fetch j = .ok (objs j))
    (hpend : ∀ j, j < N → (objs j).indexingStatus = IndexingStatusIndexing)
    (hready : (objs N).indexingStatus ≠ IndexingStatusIndexing) :
    waitGo fetch cancel fuel o =
      ⟨.success, objs N, N + 1,
        (List.range N).map (fun j => if j + 1 < 10 then 300 else 1000)⟩ := by
  rw [waitGo_enter_loop fetch cancel fuel o ho (hnc 0)]
  rw [waitLoop_advance fetch cancel objs N fuel o 0 [] (by omega) ho
    (fun j _ => hnc (0 + j))
    (fun j hj => hf (0 + j) (by omega))
    (fun j hj => hpend (0 + j) (by omega))]
  obtain ⟨f, hfeq⟩ : ∃ f, fuel - N = (f + 1) + 1 := ⟨fuel - N - 2, by omega⟩
  rw [hfeq]
  simp only [Nat.zero_add, List.nil_append]
  have hoN : (if N = 0 then o else objs (N - 1)).indexingStatus = IndexingStatusIndexing := by
    split
    · exact ho
    · exact hpend (N - 1) (by omega)
  rw [waitLoop, if_pos hoN]
  by_cases hN : N = 0
  · subst hN
    rw [if_neg (by rw [goSleepSchedule_zero]; omega)]
    rw [hf 0 (by omega)]
    simp only
    rw [waitLoop, if_neg hready]
    simp [delaysSeg_zero]
  · rw [if_pos (goSleepSchedule_pos N hN), hnc N]
    simp only [Bool.false_eq_true, if_false]
    rw [hf N (by omega)]
    simp only
    rw [waitLoop, if_neg hready]
    have : delaysSeg 0 N ++ [goSleepSchedule N] = delaysSeg 0 (N + 1) := by
      rw [delaysSeg_concat 0 N, Nat.zero_add,
        if_pos (goSleepSchedule_pos N hN)]
    rw [this, delaysSeg_zero_succ_eq N]

/-- C2: Wait on an object already in a terminal state (`"ready"` or
`"error"`) performs zero fetches, leaves the object unmodified in every field,
and succeeds — waiting on an already-failed object is not an error. -/
theorem wait_terminal_noop (fetch : Nat → Except String Object) (cancel : Nat → Bool)
    (fuel : Nat) (o : Object)
    (h : o.indexingStatus = IndexingStatusReady ∨ o.indexingStatus = IndexingStatusError) :
    waitGo fetch cancel fuel o = ⟨.success, o, 0, []⟩ := by
  apply waitGo_not_indexing
  rcases h with h | h <;> rw [h] <;> decide

/-- C10: Wait treats every status other than `"indexing"` — not only
`"ready"`/`"error"` but also the empty string or any unrecognized value — as
terminal: immediate success, zero fetches, no mutation. -/
theorem wait_nonpending_noop (fetch : Nat → Except String Object) (cancel : Nat → Bool)
    (fuel : Nat) (o : Object)
    (h : o.indexingStatus ≠ IndexingStatusIndexing) :
    waitGo fetch cancel fuel o = ⟨.success, o, 0, []⟩ :=
  waitGo_not_indexing fetch cancel fuel o h

/-- C3: during Wait on a pending object the cancellation signal is consulted
before the first fetch (check 0) and before every sleep (check `i` for
iteration `i ≥ 1`); if check `i` is the first one found cancelled — all earlier
fetches having returned still-pending objects — Wait returns the cancellation
error immediately, having performed exactly `i` fetches (none after the check),
and the caller's object is the full replacement from the last completed
iteration (the original object when no fetch completed). -/
theorem wait_cancellation (fetch : Nat → Except String Object) (cancel : Nat → Bool)
    (objs : Nat → Object) (o : Object) (i fuel : Nat)
    (hfuel : i < fuel)
    (ho : o.indexingStatus = IndexingStatusIndexing)
    (hnc : ∀ j, j < i → cancel j = false)
    (hc : cancel i = true)
    (hf : ∀ j, j < i → fetch j = .ok (objs j))
    (hpend : ∀ j, j < i → (objs j).indexingStatus = IndexingStatusIndexing) :
    waitGo fetch cancel fuel o =
      ⟨.cancelled, if i = 0 then o else objs (i - 1), i, delaysSeg 0 i⟩ := by
  by_cases hi : i = 0
  · subst hi
    unfold waitGo
    rw [if_pos ho, hc]
    simp [delaysSeg_zero]
  · rw [waitGo_enter_loop fetch cancel fuel o ho (hnc 0 (by omega))]
    rw [waitLoop_advance fetch cancel objs i fuel o 0 [] (by omega) ho
      (fun j hj => hnc (0 + j) (by omega))
      (fun j hj => hf (0 + j) (by omega))
      (fun j hj => hpend (0 + j) (by omega))]
    obtain ⟨f, hfeq⟩ : ∃ f, fuel - i = f + 1 := ⟨fuel - i - 1, by omega⟩
    rw [hfeq]
    simp only [Nat.zero_add, List.nil_append]
    rw [if_neg hi]
    have hoN : (objs (i - 1)).indexingStatus = IndexingStatusIndexing :=
      hpend (i - 1) (by omega)
    rw [waitLoop, if_pos hoN, if_pos (goSleepSchedule_pos i hi), hc]
    simp

/-- C4: during Wait on a pending object, the first fetch failure (at iteration
`i`, every earlier fetch having returned a still-pending object and no
cancellation having fired) aborts the wait at once: the fetch error is
returned unchanged, no further fetch or sleep occurs (exactly `i + 1` fetches
and the sleeps of iterations `1..i`), and the caller's object is not replaced
on the failing iteration — it stays the last successfully fetched one. -/
theorem wait_fetch_failure (fetch : Nat → Except String Object) (cancel : Nat → Bool)
    (objs : Nat → Object) (o : Object) (i fuel : Nat) (e : String)
    (hfuel : i < fuel)
    (ho : o.indexingStatus = IndexingStatusIndexing)
    (hnc : ∀ j, j ≤ i → cancel j = false)
    (hf : ∀ j, j < i → fetch j = .ok (objs j))
    (hpend : ∀ j, j < i → (objs j).indexingStatus = IndexingStatusIndexing)
    (herr : fetch i = .error e) :
    waitGo fetch cancel fuel o =
      ⟨.fetchFailed e, if i = 0 then o else objs (i - 1), i + 1, delaysSeg 0 (i + 1)⟩ := by
  rw [waitGo_enter_loop fetch cancel fuel o ho (hnc 0 (by omega))]
  rw [waitLoop_advance fetch cancel objs i fuel o 0 [] (by omega) ho
    (fun j hj => hnc (0 + j) (by omega))
    (fun j hj => hf (0 + j) (by omega))
    (fun j hj => hpend (0 + j) (by omega))]
  obtain ⟨f, hfeq⟩ : ∃ f, fuel - i = f + 1 := ⟨fuel - i - 1, by omega⟩
  rw [hfeq]
  simp only [Nat.zero_add, List.nil_append]
  have hoN : (if i = 0 then o else objs (i - 1)).indexingStatus = IndexingStatusIndexing := by
    split
    · exact ho
    · exact hpend (i - 1) (by omega)
  rw [waitLoop, if_pos hoN]
  by_cases hi : i = 0
  · subst hi
    rw [if_neg (by rw [goSleepSchedule_zero]; omega), herr]
    simp only
    rw [delaysSeg_concat 0 0, Nat.zero_add, goSleepSchedule_zero]
    simp [delaysSeg_zero]
  · rw [if_pos (goSleepSchedule_pos i hi), hnc i (by omega)]
    simp only [Bool.false_eq_true, if_false]
    rw [herr]
    simp only
    rw [delaysSeg_concat 0 i, Nat.zero_add,
      if_pos (goSleepSchedule_pos i hi)]

/-- A concrete pending object used by the witnesses. -/
def oPendEx : Object :=
  { id := "obj-1", createdAt := 0, updatedAt := 0, type' := ObjectTypeText,
    metadata := "", properties := [], indexingStatus := IndexingStatusIndexing,
    parentId := none, label := none, objects := 0 }

/-- The same object once indexed. -/
def oReadyEx : Object := { oPendEx with indexingStatus := IndexingStatusReady }

/-- The same object with an empty (unrecognized) status. -/
def oEmptyStatusEx : Object := { oPendEx with indexingStatus := "" }

theorem wait_backoff_schedule_witness :
    waitGo (fun j => .ok (if j = 0 then oPendEx else oReadyEx)) (fun _ => false)
      4 oPendEx = ⟨.success, oReadyEx, 2, [300]⟩ := by
  have h := wait_backoff_schedule (fun j => .ok (if j = 0 then oPendEx else oReadyEx))
    (fun _ => false) (fun j => if j = 0 then oPendEx else oReadyEx) oPendEx 1 4
    (by omega) rfl (fun _ => rfl) (fun j _ => rfl)
    (fun j hj => by
      have hj0 : j = 0 := by omega
      subst hj0
      rfl)
    (by decide)
  simpa using h

theorem wait_terminal_noop_witness :
    waitGo (fun _ => .error "unused") (fun _ => false) 3 oReadyEx =
      ⟨.success, oReadyEx, 0, []⟩ :=
  wait_terminal_noop (fun _ => .error "unused") (fun _ => false) 3 oReadyEx (Or.inl rfl)

theorem wait_nonpending_noop_witness :
    waitGo (fun _ => .error "unused") (fun _ => false) 3 oEmptyStatusEx =
      ⟨.success, oEmptyStatusEx, 0, []⟩ :=
  wait_nonpending_noop (fun _ => .error "unused") (fun _ => false) 3 oEmptyStatusEx
    (by decide)

theorem wait_cancellation_witness :
    waitGo (fun _ => .ok oPendEx) (fun j => decide (j = 1)) 2 oPendEx =
      ⟨.cancelled, oPendEx, 1, []⟩ := by
  have h := wait_cancellation (fun _ => .ok oPendEx) (fun j => decide (j = 1))
    (fun _ => oPendEx) oPendEx 1 2 (by omega) rfl
    (fun j hj => by
      have hj0 : j = 0 := by omega
      subst hj0
      rfl)
    rfl (fun j _ => rfl) (fun j _ => rfl)
  simpa using h

theorem wait_fetch_failure_witness :
    waitGo (fun _ => .error "boom") (fun _ => false) 1 oPendEx =
      ⟨.fetchFailed "boom", oPendEx, 1, []⟩ := by
  have h := wait_fetch_failure (fun _ => .error "boom") (fun _ => false)
    (fun _ => oPendEx) oPendEx 0 1 "boom" (by omega) rfl
    (fun j _ => rfl) (fun j hj => by omega) (fun j hj => by omega) rfl
  simpa using h

/-- An HTTP response as observed by `Client.doRequest` after `client.Do`:
Go `resp.StatusCode`, the status line text `resp.Status` (as sent by the
server, e.g. `"404 Not Found"`), and the response body bytes. -/
structure HttpResponse where
  statusCode : Nat
  status : String
  body : String
deriving DecidableEq, Repr

/-- `sub` occurs contiguously inside `s`. -/
def ContainsSubstr (s sub : String) : Prop := sub.data <:+: s.data

instance (s sub : String) : Decidable (ContainsSubstr s sub) :=
  inferInstanceAs (Decidable (sub.data <:+: s.data))

/-- The response-handling tail of `Client.doRequest` (operand.go lines 81-92):
a status of 400 or above reads the whole body into the error
`fmt.Errorf("%s: %s", resp.Status, buf)` and returns it; otherwise the body is
decoded into `dst` when one was supplied (`decode` embeds the
`json.NewDecoder(resp.Body).Decode(dst)` step, `none` embeds `dst == nil`). -/
def doRequestHandleResponse (α : Type) (decode : Option (String → Except String α))
    (resp : HttpResponse) : Except String (Option α) :=
  if 400 ≤ resp.statusCode then .error (resp.status ++ ": " ++ resp.body)
  else
    match decode with
    | none => .ok none
    | some d =>
      match d resp.body with
      | .error e => .error e
      | .ok v => .ok (some v)

/-- C5: for every response whose status signals a client/server error
(status ≥ 400, the source's check), `doRequest` yields an error and no decoded
result; since the status line starts with the numeric code, the error text
contains both the numeric status code and the raw response body, and exactly
one exchange produced exactly this one error (no retry). -/
theorem doRequest_error_surface (α : Type) (decode : Option (String → Except String α))
    (resp : HttpResponse) (rest : String)
    (herr : 400 ≤ resp.statusCode)
    (hstat : resp.status = toString resp.statusCode ++ rest) :
    doRequestHandleResponse α decode resp = .error (resp.status ++ ": " ++ resp.body) ∧
    ContainsSubstr (resp.status ++ ": " ++ resp.body) (toString resp.statusCode) ∧
    ContainsSubstr (resp.status ++ ": " ++ resp.body) resp.body := by
  refine ⟨?_, ?_, ?_⟩
  · unfold doRequestHandleResponse
    rw [if_pos herr]
  · show (toString resp.statusCode).data <:+: (resp.status ++ ": " ++ resp.body).data
    exact ⟨[], (rest ++ ": " ++ resp.body).data, by simp [hstat]⟩
  · show resp.body.data <:+: (resp.status ++ ": " ++ resp.body).data
    exact ⟨(resp.status ++ ": ").data, [], by simp⟩

/-- The simulated 404 response of the spec's error-surfacing test. -/
def resp404 : HttpResponse := ⟨404, "404 Not Found", "not found"⟩

theorem doRequest_error_surface_witness :
    400 ≤ resp404.statusCode ∧
    doRequestHandleResponse Unit none resp404 =
      .error (resp404.status ++ ": " ++ resp404.body) ∧
    ContainsSubstr (resp404.status ++ ": " ++ resp404.body) "404" ∧
    ContainsSubstr (resp404.status ++ ": " ++ resp404.body) "not found" := by
  have h := doRequest_error_surface Unit none resp404 " Not Found" (by decide) (by decide)
  exact ⟨by decide, h.1, h.2.1, h.2.2⟩

/-- Go `strings.HasSuffix(s, suf)`. -/
def goHasSuffix (s suf : String) : Bool := suf.data.isSuffixOf s.data

/-- Go `strings.TrimSuffix(s, suf)` (used by `Client.WithEndpoint`): if `s`
ends in `suf`, remove that one occurrence, else return `s` unchanged. -/
def goTrimSuffix (s suf : String) : String :=
  if goHasSuffix s suf then ⟨s.data.take (s.data.length - suf.data.length)⟩ else s

/-- `Client.WithEndpoint` (operand.go lines 37-41): the endpoint string stored
on the client. -/
def withEndpoint (endpoint : String) : String := goTrimSuffix endpoint "/"

theorem goHasSuffix_iff (s suf : String) :
    goHasSuffix s suf = true ↔ suf.data <:+ s.data := by
  simp [goHasSuffix]

theorem suffix_singleton_iff (c : Char) (l : List Char) :
    [c] <:+ l ↔ l.getLast? = some c := by
  induction l with
  | nil => simp
  | cons a t ih =>
    rw [List.suffix_cons_iff]
    cases t with
    | nil => simp [eq_comm]
    | cons b t2 =>
      simp only [List.getLast?_cons_cons]
      rw [← ih]
      constructor
      · rintro (h | h)
        · simp at h
        · exact h
      · intro h
        exact Or.inr h

/-- C8 counterexample: an endpoint ending in two slashes keeps one after
`WithEndpoint`, so the stored base endpoint still ends with a trailing
slash. -/
theorem withEndpoint_trailing_slash_cex :
    withEndpoint "https://prod.operand.ai//" = "https://prod.operand.ai/" ∧
    goHasSuffix (withEndpoint "https://prod.operand.ai//") "/" = true := by
  constructor
  · decide
  · decide

/-- C8 amended: `WithEndpoint` strips exactly one trailing slash, so for every
endpoint string that does not end in two or more consecutive slashes the
stored base endpoint does not end with a trailing slash; an input ending in
`k ≥ 2` slashes retains `k - 1` of them. -/
theorem withEndpoint_no_trailing_slash (e : String)
    (h : goHasSuffix e "//" = false) :
    goHasSuffix (withEndpoint e) "/" = false := by
  by_cases h1 : goHasSuffix e "/" = true
  · have hlast : e.data.getLast? = some '/' := by
      have := (goHasSuffix_iff e "/").mp h1
      exact (suffix_singleton_iff '/' e.data).mp this
    have hwe : withEndpoint e = ⟨e.data.dropLast⟩ := by
      unfold withEndpoint goTrimSuffix
      rw [if_pos h1]
      congr 1
      rw [List.dropLast_eq_take]
      rfl
    rw [hwe]
    rw [Bool.eq_false_iff]
    intro hcontra
    have hd : e.data.dropLast.getLast? = some '/' := by
      have := (goHasSuffix_iff ⟨e.data.dropLast⟩ "/").mp hcontra
      exact (suffix_singleton_iff '/' e.data.dropLast).mp this
    obtain ⟨t1, ht1⟩ : ['/'] <:+ e.data := (suffix_singleton_iff '/' e.data).mpr hlast
    have ht1' : t1 = e.data.dropLast := by
      rw [← ht1, List.dropLast_concat]
    obtain ⟨t2, ht2⟩ : ['/'] <:+ e.data.dropLast :=
      (suffix_singleton_iff '/' e.data.dropLast).mpr hd
    have hdouble : goHasSuffix e "//" = true := by
      rw [goHasSuffix_iff]
      refine ⟨t2, ?_⟩
      rw [show ("//" : String).data = ['/'] ++ ['/'] from rfl, ← List.append_assoc, ht2,
        ← ht1', ht1]
    rw [hdouble] at h
    simp at h
  · have h1' : goHasSuffix e "/" = false := by
      simpa using h1
    unfold withEndpoint goTrimSuffix
    rw [if_neg (by simp [h1'])]
    exact h1'

theorem withEndpoint_no_trailing_slash_witness :
    goHasSuffix "https://prod.operand.ai/" "//" = false ∧
    goHasSuffix (withEndpoint "https://prod.operand.ai/") "/" = false :=
  ⟨by decide, withEndpoint_no_trailing_slash "https://prod.operand.ai/" (by decide)⟩

/-- Go constant `DefaultEndpoint` (operand.go line 24). -/
def DefaultEndpoint : String := "https://prod.operand.ai"

/-- A built HTTP request as constructed by `doRequest` before it is executed:
method, full URL, and optional serialized body. -/
structure Request where
  method : String
  url : String
  body : Option String
deriving DecidableEq, Repr

/-- The request-construction head of `Client.doRequest` (operand.go lines
49-65): the URL is `c.endpoint+path` and the body, when present, is the
JSON-marshalled payload. -/
def doRequestBuild (endpoint method path : String) (body : Option String) : Request :=
  { method := method, url := endpoint ++ path, body := body }

/-- Go struct `ListObjectsArgs` (operand.go lines 346-351). -/
structure ListObjectsArgs where
  parentId : Option String
  limit : Int
  endingBefore : Option String
  startingAfter : Option String
deriving DecidableEq, Repr

/-- A JSON string literal (the claims' inputs need no escape sequences). -/
def jsonStr (s : String) : String := "\"" ++ s ++ "\""

/-- Comma-join of the members of a JSON object body. -/
def joinMembers : List String → String
  | [] => ""
  | [x] => x
  | x :: y :: xs => x ++ "," ++ joinMembers (y :: xs)

/-- The members `encoding/json.Marshal` emits for `ListObjectsArgs` under its
field tags: `parentId,omitempty`, `limit,omitempty`, `endingBefore,omitempty`,
`startingAfter,omitempty` (Go omits nil pointers and zero ints), in struct
field order. -/
def listObjectsFields (a : ListObjectsArgs) : List String :=
  (match a.parentId with
   | none => []
   | some p => ["\"parentId\":" ++ jsonStr p]) ++
  (if a.limit = 0 then [] else ["\"limit\":" ++ toString a.limit]) ++
  (match a.endingBefore with
   | none => []
   | some c => ["\"endingBefore\":" ++ jsonStr c]) ++
  (match a.startingAfter with
   | none => []
   | some c => ["\"startingAfter\":" ++ jsonStr c])

/-- `json.Marshal` of a `ListObjectsArgs` value. -/
def encodeListObjectsArgs (a : ListObjectsArgs) : String :=
  "\x7b" ++ joinMembers (listObjectsFields a) ++ "\x7d"

/-- `Client.ListObjects` (operand.go lines 360-369): it calls
`c.doRequest(ctx, "GET", "/v3/objects", args, resp)`, so the args travel as
the JSON request body and the path carries no query parameters. -/
def listObjectsRequest (endpoint : String) (a : ListObjectsArgs) : Request :=
  doRequestBuild endpoint "GET" "/v3/objects" (some (encodeListObjectsArgs a))

theorem infix_of_mem_joinMembers (x : String) :
    ∀ l : List String, x ∈ l → x.data <:+: (joinMembers l).data := by
  intro l
  induction l with
  | nil => intro h; cases h
  | cons y ys ih =>
    intro hx
    cases ys with
    | nil =>
      have : x = y := by simpa using hx
      subst this
      exact ⟨[], [], by simp [joinMembers]⟩
    | cons z zs =>
      rcases List.mem_cons.mp hx with h | h
      · subst h
        exact ⟨[], ("," ++ joinMembers (z :: zs)).data, by simp [joinMembers]⟩
      · obtain ⟨p, q, hpq⟩ := ih h
        refine ⟨(y ++ ",").data ++ p, q, ?_⟩
        rw [show joinMembers (y :: z :: zs) = y ++ "," ++ joinMembers (z :: zs) from rfl]
        simp only [String.data_append, List.append_assoc]
        rw [← hpq]
        simp

theorem containsSubstr_encode_of_mem (a : ListObjectsArgs) (x : String)
    (hx : x ∈ listObjectsFields a) :
    ContainsSubstr (encodeListObjectsArgs a) x := by
  obtain ⟨p, q, hpq⟩ := infix_of_mem_joinMembers x (listObjectsFields a) hx
  refine ⟨("\x7b" : String).data ++ p, q ++ ("\x7d" : String).data, ?_⟩
  show ("\x7b" : String).data ++ p ++ x.data ++ (q ++ ("\x7d" : String).data) =
    (encodeListObjectsArgs a).data
  rw [encodeListObjectsArgs]
  simp only [String.data_append, List.append_assoc]
  rw [← hpq]
  simp

/-- C7 counterexample: for a concrete `ListObjects` call with a parent filter,
a limit and a `startingAfter` cursor, the built request appends nothing to the
objects path (no query string, the cursor value appears nowhere in the URL) —
the parameters are JSON-encoded into the request body instead, contradicting
the claim that they are passed as query parameters rather than in the body. -/
theorem listObjects_query_params_cex :
    (listObjectsRequest DefaultEndpoint ⟨some "p1", 5, none, some "obj42"⟩).url =
      "https://prod.operand.ai/v3/objects" ∧
    ¬ ContainsSubstr
      (listObjectsRequest DefaultEndpoint ⟨some "p1", 5, none, some "obj42"⟩).url "?" ∧
    ¬ ContainsSubstr
      (listObjectsRequest DefaultEndpoint ⟨some "p1", 5, none, some "obj42"⟩).url "obj42" ∧
    (listObjectsRequest DefaultEndpoint ⟨some "p1", 5, none, some "obj42"⟩).body =
      some "\x7b\"parentId\":\"p1\",\"limit\":5,\"startingAfter\":\"obj42\"\x7d" := by
  refine ⟨by decide, by decide, by decide, by decide⟩

/-- C7 amended: `ListObjects` passes the pagination cursors, the limit and the
parent-id filter JSON-encoded in the request body of a `GET` to the bare
objects path; the URL is exactly the endpoint followed by `/v3/objects`, with
no query string, and each supplied cursor appears serialized in the body. -/
theorem listObjects_args_in_body (endpoint : String) (a : ListObjectsArgs)
    (hq : '?' ∉ endpoint.data) :
    (listObjectsRequest endpoint a).method = "GET" ∧
    (listObjectsRequest endpoint a).url = endpoint ++ "/v3/objects" ∧
    '?' ∉ (listObjectsRequest endpoint a).url.data ∧
    (listObjectsRequest endpoint a).body = some (encodeListObjectsArgs a) ∧
    (∀ c, a.startingAfter = some c →
      ContainsSubstr (encodeListObjectsArgs a) ("\"startingAfter\":" ++ jsonStr c)) ∧
    (∀ c, a.endingBefore = some c →
      ContainsSubstr (encodeListObjectsArgs a) ("\"endingBefore\":" ++ jsonStr c)) := by
  refine ⟨rfl, rfl, ?_, rfl, ?_, ?_⟩
  · show '?' ∉ (endpoint ++ "/v3/objects").data
    rw [String.data_append]
    intro hmem
    rcases List.mem_append.mp hmem with h | h
    · exact hq h
    · revert h
      decide
  · intro c hc
    apply containsSubstr_encode_of_mem
    simp [listObjectsFields, hc]
  · intro c hc
    apply containsSubstr_encode_of_mem
    simp [listObjectsFields, hc]

theorem listObjects_args_in_body_witness :
    '?' ∉ DefaultEndpoint.data ∧
    (listObjectsRequest DefaultEndpoint ⟨none, 0, none, some "c1"⟩).url =
      DefaultEndpoint ++ "/v3/objects" ∧
    ContainsSubstr (encodeListObjectsArgs ⟨none, 0, none, some "c1"⟩)
      ("\"startingAfter\":" ++ jsonStr "c1") := by
  have h := listObjects_args_in_body DefaultEndpoint ⟨none, 0, none, some "c1"⟩ (by decide)
  exact ⟨by decide, h.2.1, h.2.2.2.2.1 "c1" rfl⟩

/-- Go `CollectionMetadata struct{}` (operand.go). -/
structure CollectionMetadata where
deriving DecidableEq, Repr

structure TextMetadata where
  text : String
deriving DecidableEq, Repr

structure HTMLMetadata where
  html : String
  title : Option String
  url : Option String
deriving DecidableEq, Repr

structure MarkdownMetadata where
  markdown : String
  title : Option String
deriving DecidableEq, Repr

structure PDFMetadata where
  url : String
deriving DecidableEq, Repr

structure ImageMetadata where
  url : String
deriving DecidableEq, Repr

structure GitHubRepositoryMetadata where
  accessToken : String
  repoOwner : String
  repoName : String
  rootPath : Option String
  rootUrl : Option String
  ref : Option String
deriving DecidableEq, Repr

structure EPUBMetadata where
  url : String
  title : Option String
  language : Option String
deriving DecidableEq, Repr

structure AudioMetadata where
  url : String
  gcsUri : Option String
deriving DecidableEq, Repr

structure RSSMetadata where
  url : String
deriving DecidableEq, Repr

structure NotionMetadata where
  accessToken : String
deriving DecidableEq, Repr

structure MboxMetadata where
  url : String
deriving DecidableEq, Repr

/-- Go `EmailMetadata` (operand.go); `Sent *time.Time` as `Option Int`,
`From`/`To` renamed to `from'`/`to'` (Lean keywords). -/
structure EmailMetadata where
  email : String
  sent : Option Int
  from' : Option String
  subject : Option String
  to' : List String
deriving DecidableEq, Repr

structure NotionPageMetadata where
  pageId : String
  url : String
  title : Option String
deriving DecidableEq, Repr

/-- The value `Object.UnmarshalMetadata` returns (Go `any` holding a pointer
to one of the fourteen metadata structs): a sum over the supported shapes. -/
inductive MetadataValue where
  | collection (m : CollectionMetadata)
  | text (m : TextMetadata)
  | html (m : HTMLMetadata)
  | markdown (m : MarkdownMetadata)
  | pdf (m : PDFMetadata)
  | image (m : ImageMetadata)
  | gitHubRepository (m : GitHubRepositoryMetadata)
  | epub (m : EPUBMetadata)
  | audio (m : AudioMetadata)
  | rss (m : RSSMetadata)
  | notion (m : NotionMetadata)
  | mbox (m : MboxMetadata)
  | email (m : EmailMetadata)
  | notionPage (m : NotionPageMetadata)
deriving DecidableEq, Repr

/-- The object type tag whose switch case allocates each variant. -/
def variantType : MetadataValue → ObjectType
  | .collection _ => ObjectTypeCollection
  | .text _ => ObjectTypeText
  | .html _ => ObjectTypeHTML
  | .markdown _ => ObjectTypeMarkdown
  | .pdf _ => ObjectTypePDF
  | .image _ => ObjectTypeImage
  | .gitHubRepository _ => ObjectTypeGitHubRepository
  | .epub _ => ObjectTypeEPUB
  | .audio _ => ObjectTypeAudio
  | .rss _ => ObjectTypeRSS
  | .notion _ => ObjectTypeNotion
  | .mbox _ => ObjectTypeMbox
  | .email _ => ObjectEmail
  | .notionPage _ => ObjectTypeNotionPage

/-- The `json.Unmarshal` step for each target shape, abstracted: Go's stdlib
decoder is external to this repository, so it enters the embedding as an
uninterpreted family of fallible decoders from the raw metadata bytes. -/
structure JsonUnmarshal where
  collection : String → Except String CollectionMetadata
  text : String → Except String TextMetadata
  html : String → Except String HTMLMetadata
  markdown : String → Except String MarkdownMetadata
  pdf : String → Except String PDFMetadata
  image : String → Except String ImageMetadata
  gitHubRepository : String → Except String GitHubRepositoryMetadata
  epub : String → Except String EPUBMetadata
  audio : String → Except String AudioMetadata
  rss : String → Except String RSSMetadata
  notion : String → Except String NotionMetadata
  mbox : String → Except String MboxMetadata
  email : String → Except String EmailMetadata
  notionPage : String → Except String NotionPageMetadata

/-- `Object.UnmarshalMetadata` (operand.go lines 229-269): the switch over
`o.Type` selects the target shape, the default case fails with
`fmt.Errorf("unsupported object type: %s", o.Type)`, and on a known tag the
raw metadata is unmarshalled into the selected shape. -/
def Object.unmarshalMetadata (ju : JsonUnmarshal) (o : Object) :
    Except String MetadataValue :=
  if o.type' = ObjectTypeCollection then (ju.collection o.metadata).map .collection
  else if o.type' = ObjectTypeText then (ju.text o.metadata).map .text
  else if o.type' = ObjectTypeHTML then (ju.html o.metadata).map .html
  else if o.type' = ObjectTypeMarkdown then (ju.markdown o.metadata).map .markdown
  else if o.type' = ObjectTypePDF then (ju.pdf o.metadata).map .pdf
  else if o.type' = ObjectTypeImage then (ju.image o.metadata).map .image
  else if o.type' = ObjectTypeGitHubRepository then
    (ju.gitHubRepository o.metadata).map .gitHubRepository
  else if o.type' = ObjectTypeEPUB then (ju.epub o.metadata).map .epub
  else if o.type' = ObjectTypeAudio then (ju.audio o.metadata).map .audio
  else if o.type' = ObjectTypeRSS then (ju.rss o.metadata).map .rss
  else if o.type' = ObjectTypeNotion then (ju.notion o.metadata).map .notion
  else if o.type' = ObjectTypeMbox then (ju.mbox o.metadata).map .mbox
  else if o.type' = ObjectEmail then (ju.email o.metadata).map .email
  else if o.type' = ObjectTypeNotionPage then (ju.notionPage o.metadata).map .notionPage
  else .error ("unsupported object type: " ++ o.type')

/-- The fourteen type tags the switch supports. -/
def supportedObjectType (t : ObjectType) : Bool :=
  decide (t = ObjectTypeCollection) || decide (t = ObjectTypeText) ||
  decide (t = ObjectTypeHTML) || decide (t = ObjectTypeMarkdown) ||
  decide (t = ObjectTypePDF) || decide (t = ObjectTypeImage) ||
  decide (t = ObjectTypeGitHubRepository) || decide (t = ObjectTypeEPUB) ||
  decide (t = ObjectTypeAudio) || decide (t = ObjectTypeRSS) ||
  decide (t = ObjectTypeNotion) || decide (t = ObjectTypeMbox) ||
  decide (t = ObjectEmail) || decide (t = ObjectTypeNotionPage)

theorem variant_of_map_ok {β : Type} (f : β → MetadataValue) (r : Except String β)
    (v : MetadataValue) (h : r.map f = .ok v) : ∃ m, r = .ok m ∧ v = f m := by
  cases r with
  | error e => simp [Except.map] at h
  | ok m =>
    refine ⟨m, rfl, ?_⟩
    simp [Except.map] at h
    exact h.symm

/-- C9: `UnmarshalMetadata` dispatches solely on the object's type tag: for a
supported tag every successfully returned value is of the metadata variant
that tag selects, and for an unsupported tag decoding fails with the error
naming the unsupported type and returns no metadata value. -/
theorem unmarshalMetadata_dispatch (ju : JsonUnmarshal) (o : Object) :
    (supportedObjectType o.type' = true →
      ∀ v, o.unmarshalMetadata ju = .ok v → variantType v = o.type') ∧
    (supportedObjectType o.type' = false →
      o.unmarshalMetadata ju = .error ("unsupported object type: " ++ o.type')) := by
  constructor
  · intro _ v hv
    unfold Object.unmarshalMetadata at hv
    by_cases h1 : o.type' = ObjectTypeCollection
    · rw [if_pos h1] at hv
      obtain ⟨m, hm, rfl⟩ := variant_of_map_ok _ _ _ hv
      rw [h1]
      rfl
    rw [if_neg h1] at hv
    by_cases h2 : o.type' = ObjectTypeText
    · rw [if_pos h2] at hv
      obtain ⟨m, hm, rfl⟩ := variant_of_map_ok _ _ _ hv
      rw [h2]
      rfl
    rw [if_neg h2] at hv
    by_cases h3 : o.type' = ObjectTypeHTML
    · rw [if_pos h3] at hv
      obtain ⟨m, hm, rfl⟩ := variant_of_map_ok _ _ _ hv
      rw [h3]
      rfl
    rw [if_neg h3] at hv
    by_cases h4 : o.type' = ObjectTypeMarkdown
    · rw [if_pos h4] at hv
      obtain ⟨m, hm, rfl⟩ := variant_of_map_ok _ _ _ hv
      rw [h4]
      rfl
    rw [if_neg h4] at hv
    by_cases h5 : o.type' = ObjectTypePDF
    · rw [if_pos h5] at hv
      obtain ⟨m, hm, rfl⟩ := variant_of_map_ok _ _ _ hv
      rw [h5]
      rfl
    rw [if_neg h5] at hv
    by_cases h6 : o.type' = ObjectTypeImage
    · rw [if_pos h6] at hv
      obtain ⟨m, hm, rfl⟩ := variant_of_map_ok _ _ _ hv
      rw [h6]
      rfl
    rw [if_neg h6] at hv
    by_cases h7 : o.type' = ObjectTypeGitHubRepository
    · rw [if_pos h7] at hv
      obtain ⟨m, hm, rfl⟩ := variant_of_map_ok _ _ _ hv
      rw [h7]
      rfl
    rw [if_neg h7] at hv
    by_cases h8 : o.type' = ObjectTypeEPUB
    · rw [if_pos h8] at hv
      obtain ⟨m, hm, rfl⟩ := variant_of_map_ok _ _ _ hv
      rw [h8]
      rfl
    rw [if_neg h8] at hv
    by_cases h9 : o.type' = ObjectTypeAudio
    · rw [if_pos h9] at hv
      obtain ⟨m, hm, rfl⟩ := variant_of_map_ok _ _ _ hv
      rw [h9]
      rfl
    rw [if_neg h9] at hv
    by_cases h10 : o.type' = ObjectTypeRSS
    · rw [if_pos h10] at hv
      obtain ⟨m, hm, rfl⟩ := variant_of_map_ok _ _ _ hv
      rw [h10]
      rfl
    rw [if_neg h10] at hv
    by_cases h11 : o.type' = ObjectTypeNotion
    · rw [if_pos h11] at hv
      obtain ⟨m, hm, rfl⟩ := variant_of_map_ok _ _ _ hv
      rw [h11]
      rfl
    rw [if_neg h11] at hv
    by_cases h12 : o.type' = ObjectTypeMbox
    · rw [if_pos h12] at hv
      obtain ⟨m, hm, rfl⟩ := variant_of_map_ok _ _ _ hv
      rw [h12]
      rfl
    rw [if_neg h12] at hv
    by_cases h13 : o.type' = ObjectEmail
    · rw [if_pos h13] at hv
      obtain ⟨m, hm, rfl⟩ := variant_of_map_ok _ _ _ hv
      rw [h13]
      rfl
    rw [if_neg h13] at hv
    by_cases h14 : o.type' = ObjectTypeNotionPage
    · rw [if_pos h14] at hv
      obtain ⟨m, hm, rfl⟩ := variant_of_map_ok _ _ _ hv
      rw [h14]
      rfl
    rw [if_neg h14] at hv
    simp at hv
  · intro hsup
    simp only [supportedObjectType, Bool.or_eq_false_iff, decide_eq_false_iff_not] at hsup
    obtain ⟨⟨⟨⟨⟨⟨⟨⟨⟨⟨⟨⟨⟨h1, h2⟩, h3⟩, h4⟩, h5⟩, h6⟩, h7⟩, h8⟩, h9⟩, h10⟩, h11⟩, h12⟩, h13⟩, h14⟩ := hsup
    unfold Object.unmarshalMetadata
    rw [if_neg h1, if_neg h2, if_neg h3, if_neg h4, if_neg h5, if_neg h6, if_neg h7,
      if_neg h8, if_neg h9, if_neg h10, if_neg h11, if_neg h12, if_neg h13, if_neg h14]

/-- A concrete decoder family for the witness: every shape decodes trivially. -/
def juTrivial : JsonUnmarshal :=
  { collection := fun _ => .ok {}
    text := fun s => .ok { text := s }
    html := fun _ => .ok { html := "", title := none, url := none }
    markdown := fun _ => .ok { markdown := "", title := none }
    pdf := fun _ => .ok { url := "" }
    image := fun _ => .ok { url := "" }
    gitHubRepository := fun _ => .ok
      { accessToken := "", repoOwner := "", repoName := "",
        rootPath := none, rootUrl := none, ref := none }
    epub := fun _ => .ok { url := "", title := none, language := none }
    audio := fun _ => .ok { url := "", gcsUri := none }
    rss := fun _ => .ok { url := "" }
    notion := fun _ => .ok { accessToken := "" }
    mbox := fun _ => .ok { url := "" }
    email := fun _ => .ok
      { email := "", sent := none, from' := none, subject := none, to' := [] }
    notionPage := fun _ => .ok { pageId := "", url := "", title := none } }

/-- An object carrying a type tag outside the supported enumeration. -/
def oUnknownTypeEx : Object := { oPendEx with type' := "bogus" }

theorem unmarshalMetadata_dispatch_witness :
    (supportedObjectType oPendEx.type' = true ∧
      variantType (MetadataValue.text { text := "" }) = oPendEx.type') ∧
    (supportedObjectType oUnknownTypeEx.type' = false ∧
      oUnknownTypeEx.unmarshalMetadata juTrivial =
        .error ("unsupported object type: " ++ oUnknownTypeEx.type')) := by
  refine ⟨⟨by decide, ?_⟩, ⟨by decide, ?_⟩⟩
  · exact (unmarshalMetadata_dispatch juTrivial oPendEx).1 (by decide)
      (MetadataValue.text { text := "" }) rfl
  · exact (unmarshalMetadata_dispatch juTrivial oUnknownTypeEx).2 (by decide)


/-- Bytes of a UTF-8-free (ASCII) header string. -/
def strBytes (s : String) : List Nat := s.data.map Char.toNat

/-- `"\r\n"`, the multipart line terminator. -/
def crlf : String := "\r\n"

/-- Modelled from the spec: the multipart upload encoder of §4.2 (the
RPC-style `CreateFile` upload path) is not among the provided sources, so its
wire format is taken from the spec's words — one part per scalar field with a
`name` disposition parameter. -/
def scalarPart (boundary : String) (f : String × String) : List Nat :=
  strBytes ("--" ++ boundary ++ crlf ++
    "Content-Disposition: form-data; name=\"" ++ f.1 ++ "\"" ++ crlf ++ crlf ++
    f.2 ++ crlf)

/-- The optional binary payload: field name, file name, and the raw byte
stream. -/
structure FileField where
  name : String
  filename : String
  content : List Nat
deriving DecidableEq, Repr

/-- Modelled from the spec: the header of the final file part, carrying both
`name` and `filename` disposition parameters. -/
def filePartHeader (boundary name filename : String) : List Nat :=
  strBytes ("--" ++ boundary ++ crlf ++
    "Content-Disposition: form-data; name=\"" ++ name ++ "\"; filename=\"" ++
    filename ++ "\"" ++ crlf ++ crlf)

/-- The closing boundary delimiter. -/
def closeDelim (boundary : String) : List Nat :=
  strBytes ("--" ++ boundary ++ "--" ++ crlf)

/-- Modelled from the spec: the whole streaming multipart/form-data body —
scalar parts in order, then (when a file field is supplied) the file part
whose payload is the source stream copied verbatim, then the closing
boundary. -/
def multipartEncode (boundary : String) (fields : List (String × String))
    (file : Option FileField) : List Nat :=
  (fields.map (scalarPart boundary)).flatten ++
  (match file with
   | none => []
   | some ff => filePartHeader boundary ff.name ff.filename ++ ff.content ++ strBytes crlf) ++
  closeDelim boundary

/-- Length of everything the encoder emits before the file payload. -/
def multipartHeadLen (boundary : String) (fields : List (String × String))
    (name filename : String) : Nat :=
  ((fields.map (scalarPart boundary)).flatten).length +
    (filePartHeader boundary name filename).length

/-- Length of everything the encoder emits after the file payload. -/
def multipartTailLen (boundary : String) : Nat :=
  (strBytes crlf).length + (closeDelim boundary).length

/-- Decoding the file payload back out of an encoded body. -/
def extractFilePayload (boundary : String) (fields : List (String × String))
    (name filename : String) (body : List Nat) : List Nat :=
  (body.drop (multipartHeadLen boundary fields name filename)).take
    (body.length - multipartHeadLen boundary fields name filename -
      multipartTailLen boundary)

/-- C6: the modelled multipart encoder produces, for every ordered field set
and file field, a single body consisting of the scalar parts in order, a final
file part whose payload is the source stream's bytes verbatim, and a closing
boundary; the payload decodes back out unchanged, so its byte length equals
the source stream's length. -/
theorem multipart_encode_file_roundtrip (boundary : String)
    (fields : List (String × String)) (ff : FileField) :
    multipartEncode boundary fields (some ff) =
      (fields.map (scalarPart boundary)).flatten ++
        filePartHeader boundary ff.name ff.filename ++ ff.content ++
        (strBytes crlf ++ closeDelim boundary) ∧
    extractFilePayload boundary fields ff.name ff.filename
        (multipartEncode boundary fields (some ff)) = ff.content ∧
    (extractFilePayload boundary fields ff.name ff.filename
        (multipartEncode boundary fields (some ff))).length = ff.content.length := by
  have hP : multipartEncode boundary fields (some ff) =
      ((fields.map (scalarPart boundary)).flatten ++
        filePartHeader boundary ff.name ff.filename) ++
      (ff.content ++ (strBytes crlf ++ closeDelim boundary)) := by
    unfold multipartEncode
    simp [List.append_assoc]
  have hx : extractFilePayload boundary fields ff.name ff.filename
      (multipartEncode boundary fields (some ff)) = ff.content := by
    unfold extractFilePayload
    rw [hP]
    have hlen1 : ((fields.map (scalarPart boundary)).flatten ++
        filePartHeader boundary ff.name ff.filename).length =
        multipartHeadLen boundary fields ff.name ff.filename := by
      simp [multipartHeadLen]
    rw [List.drop_left' hlen1]
    have hlen2 : (((fields.map (scalarPart boundary)).flatten ++
        filePartHeader boundary ff.name ff.filename) ++
        (ff.content ++ (strBytes crlf ++ closeDelim boundary))).length -
        multipartHeadLen boundary fields ff.name ff.filename -
        multipartTailLen boundary = ff.content.length := by
      simp only [List.length_append, multipartHeadLen, multipartTailLen]
      omega
    rw [hlen2]
    exact List.take_left' rfl
  refine ⟨by rw [hP]; simp [List.append_assoc], hx, by rw [hx]⟩
